import Mathlib

/-
Verification development for the vssh repository (a Go CLI that signs SSH
keys with HashiCorp Vault and launches ssh with the signed certificate).

Go strings are modelled as lists of characters (`GoStr`).  File systems,
the Vault backend, terminal input and the system clock are modelled as
explicit parameters, so that every function under test is a pure Lean
function translated from the corresponding Go source in
src/internal/{vault,ssh,config,auth} and src/cmd/root.go.
-/

namespace Vssh

/-- Strings of the Go source, modelled as lists of characters. -/
abbrev GoStr := List Char

/-! ### Go `strings.Split` with a single-character separator -/

/-- Model of Go `strings.Split(s, sep)` for a one-character separator `c`:
splitting the empty string yields `[[]]`, and each occurrence of `c`
starts a new field. -/
def splitOnChar (c : Char) : GoStr → List GoStr
  | [] => [[]]
  | x :: xs =>
    if x = c then [] :: splitOnChar c xs
    else
      match splitOnChar c xs with
      | [] => [[x]]
      | e :: rest => (x :: e) :: rest

theorem splitOnChar_ne_nil (c : Char) (xs : GoStr) : splitOnChar c xs ≠ [] := by
  induction xs with
  | nil => simp [splitOnChar]
  | cons x xs ih =>
    simp only [splitOnChar]
    by_cases h : x = c
    · simp [h]
    · simp only [h, if_false]
      cases hs : splitOnChar c xs with
      | nil => exact absurd hs ih
      | cons e rest => simp

theorem splitOnChar_append (c : Char) (xs ys : GoStr) :
    splitOnChar c (xs ++ c :: ys) = splitOnChar c xs ++ splitOnChar c ys := by
  induction xs with
  | nil => simp [splitOnChar]
  | cons x xs ih =>
    by_cases h : x = c
    · simp [splitOnChar, h, ih]
    · simp only [List.cons_append, splitOnChar, h, if_false, List.append_eq]
      cases hs : splitOnChar c xs with
      | nil => exact absurd hs (splitOnChar_ne_nil c xs)
      | cons e rest => rw [ih, hs]; simp

theorem splitOnChar_of_not_mem (c : Char) (xs : GoStr) (h : c ∉ xs) :
    splitOnChar c xs = [xs] := by
  induction xs with
  | nil => simp [splitOnChar]
  | cons x xs ih =>
    simp only [List.mem_cons, not_or] at h
    have hx : ¬ x = c := fun hc => h.1 hc.symm
    simp [splitOnChar, hx, ih h.2]

/-! ### Go `path/filepath.Clean` and `Join` (unix rules)

`filepath.Join(a, b)` concatenates with a separator and then runs
`Clean`.  `Clean` is modelled by splitting the path into elements,
processing them with the usual stack discipline (empty and `.` elements
are dropped, `..` pops a normal element, is kept at the front of a
relative path and is dropped at the root of an absolute one), and
re-joining. -/

/-- One step of the `Clean` element processing.  `rooted` records whether
the path is absolute.  For a rooted path the top of the stack is never
`..`, so that branch keeps the stack unchanged. -/
def stepElem (rooted : Bool) (acc : List GoStr) (e : GoStr) : List GoStr :=
  if e = [] ∨ e = ['.'] then acc
  else if e = ['.', '.'] then
    match acc.getLast? with
    | none => if rooted then acc else acc ++ [e]
    | some last => if last = ['.', '.'] then (if rooted then acc else acc ++ [e]) else acc.dropLast
  else acc ++ [e]

/-- Interleave the path elements with `/` separators. -/
def interSlash : List GoStr → GoStr
  | [] => []
  | [e] => e
  | e :: rest => e ++ '/' :: interSlash rest

/-- Rebuild the cleaned path from the processed element stack. -/
def renderClean (rooted : Bool) (acc : List GoStr) : GoStr :=
  if rooted then '/' :: interSlash acc
  else if acc = [] then ['.']
  else interSlash acc

/-- Model of Go `filepath.Clean` for unix separators. -/
def goClean (p : GoStr) : GoStr :=
  match p with
  | [] => ['.']
  | c :: _ =>
    renderClean (c = '/') (List.foldl (stepElem (c = '/')) [] (splitOnChar '/' p))

/-- Model of Go `filepath.Join(a, b)`: empty elements are skipped, the
rest are joined with `/` and cleaned. -/
def goJoin2 (a b : GoStr) : GoStr :=
  if a = [] then (if b = [] then [] else goClean b)
  else goClean (a ++ '/' :: b)

theorem interSlash_append_one (S : List GoStr) (f : GoStr) (hS : S ≠ []) :
    interSlash (S ++ [f]) = interSlash S ++ '/' :: f := by
  induction S with
  | nil => exact absurd rfl hS
  | cons a t ih =>
    cases t with
    | nil => simp [interSlash]
    | cons b t' =>
      have hih := ih (by simp)
      simp only [List.cons_append, interSlash, List.append_eq] at hih ⊢
      rw [hih]
      simp

theorem stepElem_normal (rooted : Bool) (acc : List GoStr) (f : GoStr)
    (h1 : f ≠ []) (h2 : f ≠ ['.']) (h3 : f ≠ ['.', '.']) :
    stepElem rooted acc f = acc ++ [f] := by
  simp [stepElem, h1, h2, h3]

theorem renderClean_append_one (rooted : Bool) (S : List GoStr) (f : GoStr) (hS : S ≠ []) :
    renderClean rooted (S ++ [f]) = renderClean rooted S ++ '/' :: f := by
  cases rooted with
  | true => simp [renderClean, interSlash_append_one S f hS]
  | false =>
    have h1 : S ++ [f] ≠ [] := by simp
    simp [renderClean, hS, h1, interSlash_append_one S f hS]

/-- Cleaned-path stability: appending one ordinary element `f` (nonempty,
not `.`, not `..`, without separators) to a cleaned directory other than
`/` and `.` just concatenates. -/
theorem goClean_append_normal (d f : GoStr)
    (hclean : goClean d = d) (hroot : d ≠ ['/']) (hdot : d ≠ ['.'])
    (hf1 : f ≠ []) (hf2 : f ≠ ['.']) (hf3 : f ≠ ['.', '.']) (hf4 : '/' ∉ f) :
    goClean (d ++ '/' :: f) = d ++ '/' :: f := by
  cases d with
  | nil => exact absurd hclean (by simp [goClean])
  | cons c rest =>
    have hsplit : splitOnChar '/' ((c :: rest) ++ '/' :: f)
        = splitOnChar '/' (c :: rest) ++ [f] := by
      rw [splitOnChar_append, splitOnChar_of_not_mem '/' f hf4]
    have hstack : List.foldl (stepElem (c = '/')) [] (splitOnChar '/' ((c :: rest) ++ '/' :: f))
        = List.foldl (stepElem (c = '/')) [] (splitOnChar '/' (c :: rest)) ++ [f] := by
      rw [hsplit, List.foldl_append]
      simp only [List.foldl_cons, List.foldl_nil]
      exact stepElem_normal _ _ f hf1 hf2 hf3
    have hrender : renderClean (c = '/')
        (List.foldl (stepElem (c = '/')) [] (splitOnChar '/' (c :: rest))) = c :: rest := hclean
    have hne : List.foldl (stepElem (c = '/')) [] (splitOnChar '/' (c :: rest)) ≠ [] := by
      intro h0
      rw [h0] at hrender
      have hcases : ∀ R : Bool, renderClean R [] = ['/'] ∨ renderClean R [] = ['.'] := by
        intro R
        cases R with
        | true => left; simp [renderClean, interSlash]
        | false => right; simp [renderClean]
      rcases hcases (decide (c = '/')) with h | h
      · rw [hrender] at h; exact hroot h
      · rw [hrender] at h; exact hdot h
    show renderClean (c = '/') (List.foldl (stepElem (c = '/')) []
        (splitOnChar '/' ((c :: rest) ++ '/' :: f))) = (c :: rest) ++ '/' :: f
    rw [hstack, renderClean_append_one _ _ f hne, hrender]

/-! ### Signer.GetCertificatePath (src/internal/vault/client.go, ssh part)

Go: `certName := fmt.Sprintf("vault_signed_%s.pub", username);
return filepath.Join(s.config.SSH.KeyDirectory, certName)`. -/

/-- Character list spelling `vault_signed_`. -/
def vaultSignedPrefix : GoStr :=
  ['v', 'a', 'u', 'l', 't', '_', 's', 'i', 'g', 'n', 'e', 'd', '_']

/-- Character list spelling `.pub`. -/
def pubSuffix : GoStr := ['.', 'p', 'u', 'b']

/-- Model of `Signer.GetCertificatePath`. -/
def getCertificatePath (keyDirectory username : GoStr) : GoStr :=
  goJoin2 keyDirectory (vaultSignedPrefix ++ username ++ pubSuffix)

/-! ### ParseSSHTarget (src/internal/ssh signer file)

Go splits the target on `@`: two parts give user and host, one part uses
the `USER` environment variable, anything else is an invalid format;
empty user or host is rejected afterwards. -/

structure SSHTarget where
  username : GoStr
  hostname : GoStr
deriving DecidableEq

inductive TargetErr
  | invalidFormat
  | noUserEnv
  | emptyUsername
  | emptyHostname
deriving DecidableEq

/-- Model of `ParseSSHTarget`; `envUser` is the value of the `USER`
environment variable. -/
def parseSSHTarget (envUser target : GoStr) : Except TargetErr SSHTarget :=
  match splitOnChar '@' target with
  | [u, h] =>
    if u = [] then .error .emptyUsername
    else if h = [] then .error .emptyHostname
    else .ok ⟨u, h⟩
  | [h] =>
    if envUser = [] then .error .noUserEnv
    else if h = [] then .error .emptyHostname
    else .ok ⟨envUser, h⟩
  | _ => .error .invalidFormat

/-! ### Signer.IsCertificateValid

The certificate file content and the x/crypto/ssh parser are modelled as
parameters: `readResult` is the outcome of `os.ReadFile` and `parse` the
outcome of `ssh.ParseAuthorizedKey` plus the `*ssh.Certificate` type
assertion.  Times are the `uint64` unix seconds of the source
(`ValidAfter`, `ValidBefore`, `now`); the nanosecond `time.Duration`
arithmetic of the margin check reduces to a comparison on seconds, since
the branch is only reached with `now < ValidBefore`. -/

inductive SSHPubKey
  | plainKey
  | certificate (validAfter validBefore : Nat)
deriving DecidableEq

/-- Wrap an integer into the signed 64-bit range, modelling Go int64
overflow: `time.Duration` arithmetic wraps silently. -/
def wrap64 (x : Int) : Int :=
  (x + 9223372036854775808) % 18446744073709551616 - 9223372036854775808

/-- Nanoseconds in five minutes: `5 * time.Minute`, the `minValidTime`
of the source. -/
def minValidTimeNs : Int := 300000000000

/-- Model of `Signer.IsCertificateValid`.  The margin branch computes
`time.Duration(cert.ValidBefore-now) * time.Second`: the branch is only
relevant when the earlier expiry check passed, so `now < ValidBefore`
and the uint64 subtraction equals the truncated Nat subtraction; the
uint64-to-int64 conversion and the multiplication by 10^9 wrap in
int64, which `wrap64` reproduces. -/
def isCertificateValid (parse : GoStr → Option SSHPubKey)
    (readResult : Option GoStr) (now : Nat) : Bool :=
  match readResult with
  | none => false
  | some data =>
    match parse data with
    | none => false
    | some .plainKey => false
    | some (.certificate validAfter validBefore) =>
      if validBefore ≠ 0 ∧ validBefore ≤ now then false
      else if validAfter ≠ 0 ∧ now < validAfter then false
      else if validBefore ≠ 0 ∧
          wrap64 (((validBefore - now : Nat) : Int) * 1000000000) < minValidTimeNs then false
      else true

/-! ### Role resolution inside Signer.SignSSHKey

Go (src, `SignSSHKey`): start from the username, take a per-user
`vault_role` override when the user entry exists with a nonempty
override, else fall back to the global `vault.role` when nonempty. -/

structure UserConfig where
  privateKey : GoStr
  vaultRole : GoStr
deriving DecidableEq

/-- Model of the `vaultRole` computation in `SignSSHKey`; `users` is the
`config.Users` map and `globalRole` is `config.Vault.Role`. -/
def resolveVaultRole (users : GoStr → Option UserConfig)
    (globalRole username : GoStr) : GoStr :=
  match users username with
  | some cfg =>
    if cfg.vaultRole ≠ [] then cfg.vaultRole
    else if globalRole ≠ [] then globalRole
    else username
  | none => if globalRole ≠ [] then globalRole else username

/-! ### Signer environment, SignSSHKey and EnsureSSHCertificate

The file system is a partial map from paths to contents (`none` models a
missing file, matching the `os.IsNotExist` checks in the source), the
Vault backend a function from the write path and public-key data to a
response.  Outcomes record whether the signing endpoint was called and
which files were written, so the no-network and no-write parts of the
spec are statable. -/

inductive SignResponse
  | failure
  | nilData
  | noSignedKey
  | signedKey (cert : GoStr)

inductive SignErr
  | homeDirError
  | readPublicKeyFailed (path : GoStr)
  | signRequestFailed
  | noDataFromVault
  | noSignedKeyInResponse
  | privateKeyNotFound (path : GoStr)
  | publicKeyNotFound (path : GoStr)
deriving DecidableEq

structure SignerEnv where
  keyDirectory : GoStr
  users : GoStr → Option UserConfig
  globalRole : GoStr
  signingEngine : GoStr
  home : Option GoStr
  fs : GoStr → Option GoStr
  parseKey : GoStr → Option SSHPubKey
  now : Nat
  backend : GoStr → GoStr → SignResponse

/-- Character list spelling `id_rsa`. -/
def idRsaName : GoStr := ['i', 'd', '_', 'r', 's', 'a']

/-- Model of `Signer.GetPrivateKeyPath`: the per-user `private_key` when
the user has an entry, else `Join(keyDirectory, "id_rsa")` with leading
`~` expanded through the home directory. -/
def getPrivateKeyPath (env : SignerEnv) (username : GoStr) : Except SignErr GoStr :=
  match env.users username with
  | some cfg => .ok cfg.privateKey
  | none =>
    match goJoin2 env.keyDirectory idRsaName with
    | '~' :: rest =>
      match env.home with
      | none => .error .homeDirError
      | some h => .ok (goJoin2 h rest)
    | keyPath => .ok keyPath

/-- Character list spelling `/sign/`. -/
def signInfix : GoStr := ['/', 's', 'i', 'g', 'n', '/']

structure SignCallOutcome where
  result : Except SignErr GoStr
  called : Bool
  calledPath : Option GoStr

/-- Model of `Signer.SignSSHKey`: read the public key file, resolve the
role, issue the write to `<signing_engine>/sign/<role>` and extract
`signed_key`. -/
def signSSHKey (env : SignerEnv) (username publicKeyPath : GoStr) : SignCallOutcome :=
  match env.fs publicKeyPath with
  | none => ⟨.error (.readPublicKeyFailed publicKeyPath), false, none⟩
  | some pubKeyData =>
    let role := resolveVaultRole env.users env.globalRole username
    let path := env.signingEngine ++ signInfix ++ role
    match env.backend path pubKeyData with
    | .failure => ⟨.error .signRequestFailed, true, some path⟩
    | .nilData => ⟨.error .noDataFromVault, true, some path⟩
    | .noSignedKey => ⟨.error .noSignedKeyInResponse, true, some path⟩
    | .signedKey cert => ⟨.ok cert, true, some path⟩

instance instDecEqExceptV {ε α : Type} [DecidableEq ε] [DecidableEq α] :
    DecidableEq (Except ε α) := fun x y =>
  match x, y with
  | .error a, .error b =>
    if h : a = b then isTrue (h ▸ rfl) else isFalse (fun hc => h (Except.error.inj hc))
  | .error _, .ok _ => isFalse (fun hc => Except.noConfusion hc)
  | .ok _, .error _ => isFalse (fun hc => Except.noConfusion hc)
  | .ok a, .ok b =>
    if h : a = b then isTrue (h ▸ rfl) else isFalse (fun hc => h (Except.ok.inj hc))

structure EnsureOutcome where
  result : Except SignErr GoStr
  signCalled : Bool
  writes : List (GoStr × GoStr)
deriving DecidableEq

/-- Model of `Signer.EnsureSSHCertificate`.  Directory creation always
succeeds in the model; `writes` records the certificate file writes. -/
def ensureSSHCertificate (env : SignerEnv) (username : GoStr) : EnsureOutcome :=
  let certPath := getCertificatePath env.keyDirectory username
  if isCertificateValid env.parseKey (env.fs certPath) env.now then
    ⟨.ok certPath, false, []⟩
  else
    match getPrivateKeyPath env username with
    | .error e => ⟨.error e, false, []⟩
    | .ok privateKeyPath =>
      let publicKeyPath := privateKeyPath ++ pubSuffix
      if env.fs privateKeyPath = none then
        ⟨.error (.privateKeyNotFound privateKeyPath), false, []⟩
      else if env.fs publicKeyPath = none then
        ⟨.error (.publicKeyNotFound publicKeyPath), false, []⟩
      else
        let sc := signSSHKey env username publicKeyPath
        match sc.result with
        | .error e => ⟨.error e, sc.called, []⟩
        | .ok signedCert => ⟨.ok certPath, sc.called, [(certPath, signedCert)]⟩

/-! ### Client.IsTokenValid (src/internal/vault/client.go)

The token lookup is modelled as an explicit result: the call can error,
return nil data, return data without a `ttl` field, or return a `ttl`
field of one of the dynamically-typed shapes the source switches on.
Durations are kept in nanoseconds as in the source (`ttl` seconds times
`time.Second`); the `float64` case carries the integer value produced by
Go's truncating `time.Duration(v)` conversion. -/

inductive TTLField
  | intField (n : Int)
  | int64Field (n : Int)
  | float64Field (truncated : Int)
  | jsonNumberField (parsed : Except Unit Int)
  | otherType
deriving DecidableEq

inductive LookupData
  | nilData
  | noTTLKey
  | withTTL (t : TTLField)
deriving DecidableEq

structure TokenEnv where
  token : GoStr
  lookupSelf : Except Unit LookupData

/-- Model of `Client.IsTokenValid`.  Each numeric branch computes
`time.Duration(v) * time.Second`: an int64 multiplication by 10^9 that
wraps silently, reproduced by `wrap64`. -/
def isTokenValid (env : TokenEnv) : Bool :=
  if env.token = [] then false
  else
    match env.lookupSelf with
    | .error _ => false
    | .ok .nilData => false
    | .ok .noTTLKey => false
    | .ok (.withTTL t) =>
      match t with
      | .intField n =>
        if wrap64 (n * 1000000000) < minValidTimeNs then false else true
      | .int64Field n =>
        if wrap64 (n * 1000000000) < minValidTimeNs then false else true
      | .float64Field n =>
        if wrap64 (n * 1000000000) < minValidTimeNs then false else true
      | .jsonNumberField (.ok n) =>
        if wrap64 (n * 1000000000) < minValidTimeNs then false else true
      | .jsonNumberField (.error _) => false
      | .otherType => false

/-- Seconds carried by a usable `ttl` field, `none` when the field is of
an unusable shape (helper for stating the gate characterisation). -/
def ttlSecondsOf : TTLField → Option Int
  | .intField n => some n
  | .int64Field n => some n
  | .float64Field n => some n
  | .jsonNumberField (.ok n) => some n
  | .jsonNumberField (.error _) => none
  | .otherType => none

/-! ### Go strings.TrimSpace

`unicode.IsSpace` holds exactly for the White_Space code points below;
trimming drops them from both ends. -/

/-- Model of Go `unicode.IsSpace`. -/
def goIsSpace (c : Char) : Bool :=
  c.toNat = 9 || c.toNat = 10 || c.toNat = 11 || c.toNat = 12 || c.toNat = 13 ||
  c.toNat = 32 || c.toNat = 133 || c.toNat = 160 || c.toNat = 0x1680 ||
  (0x2000 ≤ c.toNat && c.toNat ≤ 0x200a) || c.toNat = 0x2028 || c.toNat = 0x2029 ||
  c.toNat = 0x202f || c.toNat = 0x205f || c.toNat = 0x3000

/-- Model of Go `strings.TrimSpace`. -/
def trimSpace (x : GoStr) : GoStr :=
  ((x.dropWhile goIsSpace).reverse.dropWhile goIsSpace).reverse

/-! ### Authenticator.authenticateUserPass (auth package, appended to
src/internal/config/config.go)

Terminal reads are modelled as explicit results; the Vault login is a
function from the write path and password to a response.  The outcome
records whether the login endpoint was called. -/

inductive AuthErr
  | readUsernameFailed
  | emptyUsername
  | readPasswordFailed
  | emptyPassword
  | loginFailed
  | noAuthData
deriving DecidableEq

inductive LoginResponse
  | failure
  | noAuth
  | token (clientToken : GoStr)

structure UserPassEnv where
  configUsername : GoStr
  configMount : GoStr
  usernameInput : Except Unit GoStr
  passwordInput : Except Unit GoStr
  login : GoStr → GoStr → LoginResponse

structure AuthOutcome where
  result : Except AuthErr GoStr
  loginCalled : Bool
deriving DecidableEq

/-- Character list spelling `userpass`. -/
def userpassMountDefault : GoStr := ['u', 's', 'e', 'r', 'p', 'a', 's', 's']

/-- Character list spelling `auth/`. -/
def authPathHead : GoStr := ['a', 'u', 't', 'h', '/']

/-- Character list spelling `/login/`. -/
def loginInfix : GoStr := ['/', 'l', 'o', 'g', 'i', 'n', '/']

/-- Model of `Authenticator.authenticateUserPass`; the successful result
is the client token installed via `SetToken`. -/
def authenticateUserPass (env : UserPassEnv) : AuthOutcome :=
  let uStep : Except AuthErr GoStr :=
    if env.configUsername = [] then
      match env.usernameInput with
      | .error _ => .error .readUsernameFailed
      | .ok raw => .ok (trimSpace raw)
    else .ok env.configUsername
  match uStep with
  | .error e => ⟨.error e, false⟩
  | .ok username =>
    if username = [] then ⟨.error .emptyUsername, false⟩
    else
      match env.passwordInput with
      | .error _ => ⟨.error .readPasswordFailed, false⟩
      | .ok rawPw =>
        let password := trimSpace rawPw
        if password = [] then ⟨.error .emptyPassword, false⟩
        else
          let mount := if env.configMount = [] then userpassMountDefault else env.configMount
          let path := authPathHead ++ mount ++ loginInfix ++ username
          match env.login path password with
          | .failure => ⟨.error .loginFailed, true⟩
          | .noAuth => ⟨.error .noAuthData, true⟩
          | .token t => ⟨.ok t, true⟩

/-! ### Client.Connect and the root command exit path

`Connect` (src/internal/ssh/client.go) wraps a child exit failure in an
error message carrying the exit code, and any other run failure in an
exec error.  The root command (src/cmd/root.go) handles a `Connect`
error with `logger.Fatalf`, which in logrus calls `os.Exit(1)`
regardless of the message; on success the process falls through and
exits 0. -/

inductive RunOutcome
  | success
  | exited (code : Int)
  | startFailure
deriving DecidableEq

inductive ConnectErr
  | connectionFailed (code : Int)
  | execFailed
deriving DecidableEq

/-- Model of the error handling at the end of `Client.Connect`. -/
def connectResult (run : RunOutcome) : Except ConnectErr Unit :=
  match run with
  | .success => .ok ()
  | .exited code => .error (.connectionFailed code)
  | .startFailure => .error .execFailed

/-- Exit code of `logrus.Logger.Fatalf` with the default `ExitFunc`. -/
def logrusFatalExitCode : Nat := 1

/-- Exit code of the vssh process as a function of the SSH child run
outcome (root.go lines 140-142). -/
def rootExitCode (run : RunOutcome) : Nat :=
  match connectResult run with
  | .ok _ => 0
  | .error _ => logrusFatalExitCode

/-! ### Concrete environments used by the witness theorems -/

/-- Signer environment with an empty file system: no cached certificate
and no key pair anywhere. -/
def envNoKeys : SignerEnv where
  keyDirectory := ['/', 'k']
  users := fun _ => none
  globalRole := []
  signingEngine := ['e']
  home := none
  fs := fun _ => none
  parseKey := fun _ => none
  now := 0
  backend := fun _ _ => .failure

/-- Userpass environment where the configured username is set and the
operator types a blank password. -/
def envBlankPassword : UserPassEnv where
  configUsername := ['u']
  configMount := []
  usernameInput := .error ()
  passwordInput := .ok [' ', ' ']
  login := fun _ _ => .failure

/-! ## Claims -/

/-- Claim C1, counterexample: when the SSH child exits with code 2, the
vssh process exits with code 1, not 2 — `logger.Fatalf` in root.go exits
with logrus's fixed code 1 and the child code survives only inside the
error message built in `Connect`. -/
theorem c1_counterexample : rootExitCode (.exited 2) = 1 ∧ (1 : Nat) ≠ 2 :=
  ⟨rfl, by decide⟩

/-- Claim C1, amended: for every child SSH exit code N with 1 ≤ N ≤ 255,
`Connect` returns a `ConnectionFailed` error carrying N, but the vssh
process itself exits with code 1 (the logrus `Fatalf` exit code), not N. -/
theorem c1_exit_code_collapsed (n : Int) (h1 : 1 ≤ n) (h2 : n ≤ 255) :
    rootExitCode (.exited n) = 1 ∧
      connectResult (.exited n) = .error (.connectionFailed n) :=
  ⟨rfl, rfl⟩

/-- Witness for C1 at child exit code 37. -/
theorem c1_witness :
    (1 : Int) ≤ 37 ∧ (37 : Int) ≤ 255 ∧
      (rootExitCode (.exited 37) = 1 ∧
        connectResult (.exited 37) = .error (.connectionFailed 37)) :=
  ⟨by decide, by decide, c1_exit_code_collapsed 37 (by decide) (by decide)⟩

/-- Claim C2, counterexample: with no per-identity override but a global
`vault.role` of `g` configured, the signing role for identity `alice` is
`g`, not `alice`. -/
theorem c2_counterexample :
    resolveVaultRole (fun _ => none) ['g'] ['a', 'l', 'i', 'c', 'e'] = ['g'] ∧
      (['g'] : GoStr) ≠ ['a', 'l', 'i', 'c', 'e'] :=
  ⟨rfl, by decide⟩

/-- Claim C2, amended: the signing role is the per-identity `vault_role`
override when the user entry exists with a nonempty override; otherwise
it is the global `vault.role` when that is nonempty; otherwise it is the
identity name itself. -/
theorem c2_role_resolution (users : GoStr → Option UserConfig) (g u : GoStr) :
    (∀ cfg, users u = some cfg → cfg.vaultRole ≠ [] →
      resolveVaultRole users g u = cfg.vaultRole) ∧
    (users u = none → g = [] → resolveVaultRole users g u = u) ∧
    (users u = none → g ≠ [] → resolveVaultRole users g u = g) ∧
    (∀ cfg, users u = some cfg → cfg.vaultRole = [] → g = [] →
      resolveVaultRole users g u = u) ∧
    (∀ cfg, users u = some cfg → cfg.vaultRole = [] → g ≠ [] →
      resolveVaultRole users g u = g) := by
  refine ⟨?_, ?_, ?_, ?_, ?_⟩ <;> intros <;> simp_all [resolveVaultRole]

/-- Witness for C2: identity `a` with override `ops` resolves to `ops`. -/
theorem c2_witness :
    resolveVaultRole
      (fun x => if x = ['a'] then some ⟨['k'], ['o', 'p', 's']⟩ else none) ['g'] ['a'] =
      ['o', 'p', 's'] :=
  (c2_role_resolution _ ['g'] ['a']).1 ⟨['k'], ['o', 'p', 's']⟩ (by decide) (by decide)

/-- Claim C3, counterexample: `filepath.Join` cleans the joined path, so
for key directory `/k` and identity `a//b` the computed path is
`/k/vault_signed_a/b.pub`, not the literal `/k/vault_signed_a//b.pub`. -/
theorem c3_counterexample :
    getCertificatePath ['/', 'k'] ['a', '/', '/', 'b'] =
      ['/', 'k', '/', 'v', 'a', 'u', 'l', 't', '_', 's', 'i', 'g', 'n', 'e', 'd', '_',
        'a', '/', 'b', '.', 'p', 'u', 'b'] ∧
    getCertificatePath ['/', 'k'] ['a', '/', '/', 'b'] ≠
      ['/', 'k'] ++ '/' :: (vaultSignedPrefix ++ ['a', '/', '/', 'b'] ++ pubSuffix) := by
  constructor
  · rfl
  · decide

/-- Claim C3, amended: for every key directory that is a cleaned path
(fixed by `filepath.Clean`) other than `/` and `.`, and every identity
containing no path separator — dots and hyphens included — the
certificate path is exactly `<key_directory>/vault_signed_<identity>.pub`;
for other inputs `filepath.Join` normalises the result. -/
theorem c3_certificate_path (d X : GoStr) (hclean : goClean d = d)
    (hroot : d ≠ ['/']) (hdot : d ≠ ['.']) (hX : '/' ∉ X) :
    getCertificatePath d X = d ++ '/' :: (vaultSignedPrefix ++ X ++ pubSuffix) := by
  have hd : d ≠ [] := by
    intro h
    rw [h] at hclean
    exact absurd hclean (by decide)
  have hv : (vaultSignedPrefix ++ X ++ pubSuffix).head? = some 'v' := by
    simp [vaultSignedPrefix]
  have hf1 : vaultSignedPrefix ++ X ++ pubSuffix ≠ [] := by
    intro h
    rw [h] at hv
    exact absurd hv (by decide)
  have hf2 : vaultSignedPrefix ++ X ++ pubSuffix ≠ ['.'] := by
    intro h
    rw [h] at hv
    exact absurd hv (by decide)
  have hf3 : vaultSignedPrefix ++ X ++ pubSuffix ≠ ['.', '.'] := by
    intro h
    rw [h] at hv
    exact absurd hv (by decide)
  have hf4 : '/' ∉ vaultSignedPrefix ++ X ++ pubSuffix := by
    intro h
    rcases List.mem_append.mp h with h' | h'
    · rcases List.mem_append.mp h' with h'' | h''
      · exact absurd h'' (by decide)
      · exact hX h''
    · exact absurd h' (by decide)
  show goJoin2 d (vaultSignedPrefix ++ X ++ pubSuffix) = _
  rw [goJoin2, if_neg hd]
  exact goClean_append_normal d _ hclean hroot hdot hf1 hf2 hf3 hf4

/-- Witness for C3: key directory `/ssh` and identity `a.-b` (with a dot
and a hyphen) give `/ssh/vault_signed_a.-b.pub`. -/
theorem c3_witness :
    getCertificatePath ['/', 's', 's', 'h'] ['a', '.', '-', 'b'] =
      ['/', 's', 's', 'h'] ++ '/' :: (vaultSignedPrefix ++ ['a', '.', '-', 'b'] ++ pubSuffix) :=
  c3_certificate_path ['/', 's', 's', 'h'] ['a', '.', '-', 'b']
    (by decide) (by decide) (by decide) (by decide)

/-- Claim C4, counterexample: a certificate whose encoded `ValidBefore`
field is 0 is reported valid at time 1000 although the current time is
at or after that not-after value — the source skips every not-after
check when the field is 0. -/
theorem c4_counterexample :
    isCertificateValid (fun _ => some (.certificate 0 0)) (some ['x']) 1000 = true ∧
      (0 : Nat) ≤ 1000 :=
  ⟨rfl, by decide⟩

/-- Claim C4, amended: `IsCertificateValid` returns a boolean and never
raises; it returns true exactly when the file is readable, its content
parses as a certificate, the nonzero not-before check passes (a zero
not-before means no begin bound), and for a nonzero not-after the
current time is before it with the remaining time, converted to int64
nanoseconds with Go's silent wrap-around, at least the 5-minute margin —
so a remaining lifetime beyond roughly 292 years (including the OpenSSH
`CertTimeInfinity` not-after) overflows negative and is judged invalid. -/
theorem c4_certificate_gate (parse : GoStr → Option SSHPubKey)
    (r : Option GoStr) (now : Nat) :
    isCertificateValid parse r now = true ↔
      ∃ data validAfter validBefore, r = some data ∧
        parse data = some (.certificate validAfter validBefore) ∧
        (validBefore = 0 ∨ (now < validBefore ∧
          minValidTimeNs ≤ wrap64 (((validBefore - now : Nat) : Int) * 1000000000))) ∧
        (validAfter = 0 ∨ validAfter ≤ now) := by
  cases r with
  | none => simp [isCertificateValid]
  | some data =>
    cases hp : parse data with
    | none => simp [isCertificateValid, hp]
    | some k =>
      cases k with
      | plainKey => simp [isCertificateValid, hp]
      | certificate va vb =>
        simp only [isCertificateValid, hp]
        constructor
        · intro h
          split_ifs at h with h1 h2 h3
          refine ⟨data, va, vb, rfl, hp, ?_, by omega⟩
          by_cases hvb : vb = 0
          · exact .inl hvb
          · exact .inr ⟨by omega, le_of_not_lt (fun hlt => h3 ⟨hvb, hlt⟩)⟩
        · rintro ⟨d, a2, b2, hd, hp2, hwin, hbef⟩
          injection hd with hd
          subst hd
          rw [hp] at hp2
          injection hp2 with hp2
          injection hp2 with ha hb
          subst ha
          subst hb
          split_ifs with h1 h2 h3
          · rcases hwin with h0 | ⟨hlt, hge⟩
            · exact absurd h0 h1.1
            · exact absurd h1.2 (by omega)
          · rcases hbef with h0 | hle
            · exact absurd h0 h2.1
            · exact absurd h2.2 (by omega)
          · rcases hwin with h0 | ⟨hlt, hge⟩
            · exact absurd h0 h3.1
            · exact absurd h3.2 (not_lt.mpr hge)
          · rfl

/-- Claim C6: when the cached certificate is invalid and the private key
or its companion public key is missing, `EnsureSSHCertificate` fails
with an error naming the expected key path, calls no backend endpoint
and writes nothing. -/
theorem c6_missing_keys (env : SignerEnv) (username pk : GoStr)
    (hinvalid : isCertificateValid env.parseKey
      (env.fs (getCertificatePath env.keyDirectory username)) env.now = false)
    (hpk : getPrivateKeyPath env username = .ok pk)
    (habsent : env.fs pk = none ∨ env.fs (pk ++ pubSuffix) = none) :
    (ensureSSHCertificate env username).signCalled = false ∧
    (ensureSSHCertificate env username).writes = [] ∧
    ((env.fs pk = none ∧
        (ensureSSHCertificate env username).result = .error (.privateKeyNotFound pk)) ∨
      (env.fs pk ≠ none ∧
        (ensureSSHCertificate env username).result =
          .error (.publicKeyNotFound (pk ++ pubSuffix)))) := by
  by_cases h1 : env.fs pk = none
  · simp [ensureSSHCertificate, hinvalid, hpk, h1]
  · have h2 : env.fs (pk ++ pubSuffix) = none := habsent.resolve_left h1
    simp [ensureSSHCertificate, hinvalid, hpk, h1, h2]

/-- Witness for C6 in the environment with an empty file system. -/
theorem c6_witness :
    (ensureSSHCertificate envNoKeys ['b', 'o', 'b']).signCalled = false ∧
    (ensureSSHCertificate envNoKeys ['b', 'o', 'b']).writes = [] ∧
    ((envNoKeys.fs ['/', 'k', '/', 'i', 'd', '_', 'r', 's', 'a'] = none ∧
        (ensureSSHCertificate envNoKeys ['b', 'o', 'b']).result =
          .error (.privateKeyNotFound ['/', 'k', '/', 'i', 'd', '_', 'r', 's', 'a'])) ∨
      (envNoKeys.fs ['/', 'k', '/', 'i', 'd', '_', 'r', 's', 'a'] ≠ none ∧
        (ensureSSHCertificate envNoKeys ['b', 'o', 'b']).result =
          .error (.publicKeyNotFound
            (['/', 'k', '/', 'i', 'd', '_', 'r', 's', 'a'] ++ pubSuffix)))) :=
  c6_missing_keys envNoKeys ['b', 'o', 'b'] ['/', 'k', '/', 'i', 'd', '_', 'r', 's', 'a']
    (by decide) (by decide) (.inl (by decide))

/-- Claim C7: in the username/password flow, once a username is
resolved, a password input that is empty or whitespace after trimming
fails with the empty-password error before the login endpoint is
called. -/
theorem c7_empty_password (env : UserPassEnv) (rawPw : GoStr)
    (husername : env.configUsername ≠ [] ∨
      (∃ raw, env.usernameInput = .ok raw ∧ trimSpace raw ≠ []))
    (hpw : env.passwordInput = .ok rawPw) (hblank : trimSpace rawPw = []) :
    authenticateUserPass env = ⟨.error .emptyPassword, false⟩ := by
  by_cases hc : env.configUsername = []
  · rcases husername with h | ⟨raw, hin, hne⟩
    · exact absurd hc h
    · simp [authenticateUserPass, hc, hin, hne, hpw, hblank]
  · simp [authenticateUserPass, hc, hpw, hblank]

/-- Witness for C7: configured username `u`, password two blanks. -/
theorem c7_witness :
    authenticateUserPass envBlankPassword = ⟨.error .emptyPassword, false⟩ :=
  c7_empty_password envBlankPassword [' ', ' ']
    (.inl (by decide)) (by decide) (by decide)

/-- Claim C8, counterexample: with a token set and a self-lookup
reporting a ttl of -10^10 seconds, the int64 multiplication by 10^9
wraps to a large positive duration and `IsTokenValid` returns true,
although the remaining time-to-live is far below the 5-minute floor. -/
theorem c8_counterexample :
    isTokenValid ⟨['t'], .ok (.withTTL (.int64Field (-10000000000)))⟩ = true ∧
      (-10000000000 : Int) < 300 := by
  refine ⟨by decide, by decide⟩

/-- Claim C8, amended: `IsTokenValid` is a total boolean gate — no token,
an erroring lookup, nil data, a missing or unusable `ttl` field all
collapse to false, never an error — and it is true exactly when a token
is set, the lookup succeeds with a usable `ttl`, and the duration
obtained by converting that ttl to int64 nanoseconds with Go's silent
wrap-around is at least 5 minutes; because of the wrap this differs
from the mathematical ttl beyond about 292 years (ttl = 10^10 s is
judged invalid and ttl = -10^10 s valid). -/
theorem c8_token_gate (env : TokenEnv) :
    isTokenValid env = true ↔
      env.token ≠ [] ∧ ∃ t n, env.lookupSelf = .ok (.withTTL t) ∧
        ttlSecondsOf t = some n ∧ minValidTimeNs ≤ wrap64 (n * 1000000000) := by
  by_cases htok : env.token = []
  · simp [isTokenValid, htok]
  · cases hl : env.lookupSelf with
    | error e => simp [isTokenValid, htok, hl]
    | ok d =>
      cases d with
      | nilData => simp [isTokenValid, htok, hl]
      | noTTLKey => simp [isTokenValid, htok, hl]
      | withTTL t =>
        cases t with
        | intField n =>
          simp [isTokenValid, htok, hl, ttlSecondsOf, not_lt]
        | int64Field n =>
          simp [isTokenValid, htok, hl, ttlSecondsOf, not_lt]
        | float64Field n =>
          simp [isTokenValid, htok, hl, ttlSecondsOf, not_lt]
        | jsonNumberField p =>
          cases p with
          | ok n =>
            simp [isTokenValid, htok, hl, ttlSecondsOf, not_lt]
          | error u => simp [isTokenValid, htok, hl, ttlSecondsOf]
        | otherType => simp [isTokenValid, htok, hl, ttlSecondsOf]

/-- Claim C9, counterexample: the empty target contains no `@`, yet
`ParseSSHTarget` rejects it with the empty-hostname error instead of
succeeding. -/
theorem c9_counterexample :
    ('@' ∉ ([] : GoStr)) ∧ parseSSHTarget ['a'] [] = .error .emptyHostname :=
  ⟨by decide, rfl⟩

/-- Claim C9, amended: for every nonempty target without `@`, when the
`USER` environment variable is nonempty, parsing succeeds with that user
and the whole target as hostname; for every `user@host` target whose two
parts are nonempty and `@`-free, parsing returns exactly those parts. -/
theorem c9_parse_target (envUser target u h : GoStr) :
    (('@' ∉ target) → target ≠ [] → envUser ≠ [] →
      parseSSHTarget envUser target = .ok ⟨envUser, target⟩) ∧
    ('@' ∉ u → '@' ∉ h → u ≠ [] → h ≠ [] →
      parseSSHTarget envUser (u ++ '@' :: h) = .ok ⟨u, h⟩) := by
  constructor
  · intro hmem hne huser
    simp [parseSSHTarget, splitOnChar_of_not_mem '@' target hmem, hne, huser]
  · intro hu hh hune hhne
    have hsplit : splitOnChar '@' (u ++ '@' :: h) = [u, h] := by
      rw [splitOnChar_append, splitOnChar_of_not_mem '@' u hu,
        splitOnChar_of_not_mem '@' h hh]
      rfl
    simp [parseSSHTarget, hsplit, hune, hhne]

/-- Witness for C9: bare host `h1` with user `ev` from the environment,
and explicit `u1@h2`. -/
theorem c9_witness :
    parseSSHTarget ['e', 'v'] ['h', '1'] = .ok ⟨['e', 'v'], ['h', '1']⟩ ∧
    parseSSHTarget ['e', 'v'] (['u', '1'] ++ '@' :: ['h', '2']) = .ok ⟨['u', '1'], ['h', '2']⟩ :=
  ⟨(c9_parse_target ['e', 'v'] ['h', '1'] [] []).1 (by decide) (by decide) (by decide),
   (c9_parse_target ['e', 'v'] [] ['u', '1'] ['h', '2']).2
     (by decide) (by decide) (by decide) (by decide)⟩

/-- Claim C10: a certificate whose `ValidBefore` field is 0 passes
`IsCertificateValid` whenever the not-before check passes — a zero
not-after is treated as no expiry and skips the margin check too. -/
theorem c10_zero_not_after (parse : GoStr → Option SSHPubKey) (data : GoStr)
    (va now : Nat) (hp : parse data = some (.certificate va 0))
    (hbefore : va = 0 ∨ va ≤ now) :
    isCertificateValid parse (some data) now = true := by
  have h2 : ¬(va ≠ 0 ∧ now < va) := by omega
  simp [isCertificateValid, hp, h2]

/-- Witness for C10: not-before 0, not-after 0, clock far in the
future. -/
theorem c10_witness :
    isCertificateValid (fun _ => some (.certificate 0 0)) (some ['y']) 999999 = true :=
  c10_zero_not_after (fun _ => some (.certificate 0 0)) ['y'] 0 999999 rfl (.inl rfl)

end Vssh
